import Mathlib

/-!
Verification development for the AI-Aura repository.

The repository is a React chat frontend (src/services/apiService.ts,
src/services/geminiService.ts, src/types.ts, the main App component) that
talks to a Python RAG backend.  The backend (Document Loader, Chunker,
Embedder, Vector Store, Retriever) is not present in the inspected source;
where a definition embeds that missing backend it is modelled from the
specification and its doc comment says so.  Definitions embedding frontend
code are translated directly from the TypeScript source.
-/

namespace Aura

/-! ### Exact score arithmetic for cosine similarity

Modelled from the spec: the Vector Store computes
cosine similarity = dot(a,b) / (norm a * norm b).  We keep scores exact as a
pair (num, den2) denoting num / sqrt den2, so that comparisons are decidable
over the rationals. -/

/-- Dot product of two rational vectors (missing coordinates count as 0). -/
def dotQ (a b : List ℚ) : ℚ := (List.zipWith (fun x y => x * y) a b).sum

/-- Squared Euclidean norm of a rational vector. -/
def normSq (v : List ℚ) : ℚ := dotQ v v

/-- Exact representation of a cosine-similarity score: the pair denotes
the real number num / sqrt den2. -/
structure ScoreRep where
  num : ℚ
  den2 : ℚ
deriving DecidableEq, Repr

/-- The real value denoted by a score representation. -/
noncomputable def cosineVal (s : ScoreRep) : ℝ :=
  (s.num : ℝ) / Real.sqrt (s.den2 : ℝ)

/-- Decidable test for cosineVal s being at least cosineVal t, computed by
rational sign analysis and cross-multiplied squares. -/
def scoreGE (s t : ScoreRep) : Bool :=
  if s.den2 ≤ 0 then
    if t.den2 ≤ 0 then true
    else decide (t.num ≤ 0)
  else
    if t.den2 ≤ 0 then decide (0 ≤ s.num)
    else
      if 0 ≤ s.num then
        if 0 ≤ t.num then decide (t.num ^ 2 * s.den2 ≤ s.num ^ 2 * t.den2)
        else true
      else
        if 0 ≤ t.num then false
        else decide (s.num ^ 2 * t.den2 ≤ t.num ^ 2 * s.den2)

lemma cosineVal_of_den2_nonpos {s : ScoreRep} (h : s.den2 ≤ 0) : cosineVal s = 0 := by
  have h' : (s.den2 : ℝ) ≤ 0 := by exact_mod_cast h
  simp [cosineVal, Real.sqrt_eq_zero'.mpr h']

lemma scoreGE_iff (s t : ScoreRep) :
    scoreGE s t = true ↔ cosineVal t ≤ cosineVal s := by
  by_cases hs : s.den2 ≤ 0
  · by_cases ht : t.den2 ≤ 0
    · simp [scoreGE, hs, ht, cosineVal_of_den2_nonpos hs, cosineVal_of_den2_nonpos ht]
    · have htpos : (0 : ℝ) < (t.den2 : ℝ) := by
        exact_mod_cast lt_of_not_le ht
      have hsqrt : (0 : ℝ) < Real.sqrt (t.den2 : ℝ) := Real.sqrt_pos.mpr htpos
      simp only [scoreGE, hs, ht, if_true, if_false, ite_true, ite_false,
        decide_eq_true_eq, cosineVal_of_den2_nonpos hs]
      rw [cosineVal, div_nonpos_iff]
      constructor
      · intro h
        right
        exact ⟨by exact_mod_cast h, le_of_lt hsqrt⟩
      · rintro (⟨h1, h2⟩ | ⟨h1, h2⟩)
        · exact absurd h2 (not_le.mpr hsqrt)
        · exact_mod_cast h1
  · have hspos : (0 : ℝ) < (s.den2 : ℝ) := by exact_mod_cast lt_of_not_le hs
    have hsqs : (0 : ℝ) < Real.sqrt (s.den2 : ℝ) := Real.sqrt_pos.mpr hspos
    by_cases ht : t.den2 ≤ 0
    · simp only [scoreGE, hs, ht, if_true, if_false, ite_true, ite_false,
        decide_eq_true_eq, cosineVal_of_den2_nonpos ht]
      rw [cosineVal, le_div_iff₀ hsqs, zero_mul]
      exact ⟨fun h => by exact_mod_cast h, fun h => by exact_mod_cast h⟩
    · have htpos : (0 : ℝ) < (t.den2 : ℝ) := by exact_mod_cast lt_of_not_le ht
      have hsqt : (0 : ℝ) < Real.sqrt (t.den2 : ℝ) := Real.sqrt_pos.mpr htpos
      have hdiv : cosineVal t ≤ cosineVal s ↔
          (t.num : ℝ) * Real.sqrt (s.den2 : ℝ) ≤ (s.num : ℝ) * Real.sqrt (t.den2 : ℝ) := by
        unfold cosineVal
        exact div_le_div_iff₀ hsqt hsqs
      have hmulsq : ∀ (p : ℚ) (d : ℚ), 0 < (d : ℝ) →
          ((p : ℝ) * Real.sqrt (d : ℝ)) * ((p : ℝ) * Real.sqrt (d : ℝ)) = (p : ℝ) ^ 2 * (d : ℝ) := by
        intro p d hd
        have hss : Real.sqrt (d : ℝ) * Real.sqrt (d : ℝ) = (d : ℝ) :=
          Real.mul_self_sqrt (le_of_lt hd)
        calc ((p : ℝ) * Real.sqrt (d : ℝ)) * ((p : ℝ) * Real.sqrt (d : ℝ))
            = (p : ℝ) * (p : ℝ) * (Real.sqrt (d : ℝ) * Real.sqrt (d : ℝ)) := by ring
          _ = (p : ℝ) ^ 2 * (d : ℝ) := by rw [hss]; ring
      by_cases hsn : 0 ≤ s.num
      · by_cases htn : 0 ≤ t.num
        · simp only [scoreGE, hs, ht, hsn, htn, if_true, if_false, ite_true, ite_false,
            decide_eq_true_eq]
          rw [hdiv]
          have ha : (0 : ℝ) ≤ (t.num : ℝ) * Real.sqrt (s.den2 : ℝ) :=
            mul_nonneg (by exact_mod_cast htn) (le_of_lt hsqs)
          have hb : (0 : ℝ) ≤ (s.num : ℝ) * Real.sqrt (t.den2 : ℝ) :=
            mul_nonneg (by exact_mod_cast hsn) (le_of_lt hsqt)
          rw [mul_self_le_mul_self_iff ha hb, hmulsq t.num s.den2 hspos,
            hmulsq s.num t.den2 htpos]
          constructor
          · intro h
            exact_mod_cast h
          · intro h
            exact_mod_cast h
        · simp only [scoreGE, hs, ht, hsn, htn, if_true, if_false, ite_true, ite_false]
          rw [hdiv]
          simp only [true_iff]
          have h1 : (t.num : ℝ) * Real.sqrt (s.den2 : ℝ) < 0 :=
            mul_neg_of_neg_of_pos (by exact_mod_cast lt_of_not_le htn) hsqs
          have h2 : (0 : ℝ) ≤ (s.num : ℝ) * Real.sqrt (t.den2 : ℝ) :=
            mul_nonneg (by exact_mod_cast hsn) (le_of_lt hsqt)
          exact le_trans (le_of_lt h1) h2
      · by_cases htn : 0 ≤ t.num
        · simp only [scoreGE, hs, ht, hsn, htn, if_true, if_false, ite_true, ite_false]
          rw [hdiv]
          simp only [Bool.false_eq_true, false_iff, not_le]
          have h1 : (s.num : ℝ) * Real.sqrt (t.den2 : ℝ) < 0 :=
            mul_neg_of_neg_of_pos (by exact_mod_cast lt_of_not_le hsn) hsqt
          have h2 : (0 : ℝ) ≤ (t.num : ℝ) * Real.sqrt (s.den2 : ℝ) :=
            mul_nonneg (by exact_mod_cast htn) (le_of_lt hsqs)
          exact lt_of_lt_of_le h1 h2
        · simp only [scoreGE, hs, ht, hsn, htn, if_true, if_false, ite_true, ite_false,
            decide_eq_true_eq]
          rw [hdiv]
          have ha : (0 : ℝ) ≤ -((s.num : ℝ) * Real.sqrt (t.den2 : ℝ)) := by
            have : (s.num : ℝ) * Real.sqrt (t.den2 : ℝ) < 0 :=
              mul_neg_of_neg_of_pos (by exact_mod_cast lt_of_not_le hsn) hsqt
            linarith
          have hb : (0 : ℝ) ≤ -((t.num : ℝ) * Real.sqrt (s.den2 : ℝ)) := by
            have : (t.num : ℝ) * Real.sqrt (s.den2 : ℝ) < 0 :=
              mul_neg_of_neg_of_pos (by exact_mod_cast lt_of_not_le htn) hsqs
            linarith
          have hflip : (t.num : ℝ) * Real.sqrt (s.den2 : ℝ) ≤ (s.num : ℝ) * Real.sqrt (t.den2 : ℝ) ↔
              -((s.num : ℝ) * Real.sqrt (t.den2 : ℝ)) ≤ -((t.num : ℝ) * Real.sqrt (s.den2 : ℝ)) := by
            constructor <;> intro h <;> linarith
          rw [hflip, mul_self_le_mul_self_iff ha hb]
          have e1 : -((s.num : ℝ) * Real.sqrt (t.den2 : ℝ)) * -((s.num : ℝ) * Real.sqrt (t.den2 : ℝ)) =
              (s.num : ℝ) ^ 2 * (t.den2 : ℝ) := by
            rw [neg_mul_neg]
            exact hmulsq s.num t.den2 htpos
          have e2 : -((t.num : ℝ) * Real.sqrt (s.den2 : ℝ)) * -((t.num : ℝ) * Real.sqrt (s.den2 : ℝ)) =
              (t.num : ℝ) ^ 2 * (s.den2 : ℝ) := by
            rw [neg_mul_neg]
            exact hmulsq t.num s.den2 hspos
          rw [e1, e2]
          constructor
          · intro h
            exact_mod_cast h
          · intro h
            exact_mod_cast h

/-! ### Vector Store -/

/-- Modelled from the spec: a stored chunk with its metadata and embedding
(spec section 3, Chunk = id, documentId, text, startOffset, endOffset,
embedding). -/
structure Chunk where
  id : Nat
  documentId : String
  text : String
  startOffset : Nat
  endOffset : Nat
  embedding : List ℚ
deriving DecidableEq, Repr

/-- Modelled from the spec: the Vector Store holds all chunks; the list is
kept in insertion order so that exact ties can be broken by insertion order
(earlier chunk wins). -/
structure VectorStore where
  chunks : List Chunk
deriving DecidableEq, Repr

/-- Exact score of a chunk against a query vector: the pair
(dot q emb, normSq q * normSq emb) denotes their cosine similarity
dot / (norm q * norm emb). -/
def scoreOf (q : List ℚ) (c : Chunk) : ScoreRep :=
  ⟨dotQ q c.embedding, normSq q * normSq c.embedding⟩

/-- Ordering used for ranking query results: descending cosine score. -/
def scoredGE (a b : Chunk × ScoreRep) : Prop := scoreGE a.2 b.2 = true

instance : DecidableRel scoredGE := fun a b =>
  inferInstanceAs (Decidable (scoreGE a.2 b.2 = true))

instance : IsTotal (Chunk × ScoreRep) scoredGE where
  total a b := by
    unfold scoredGE
    rcases le_total (cosineVal b.2) (cosineVal a.2) with h | h
    · exact Or.inl ((scoreGE_iff a.2 b.2).mpr h)
    · exact Or.inr ((scoreGE_iff b.2 a.2).mpr h)

instance : IsTrans (Chunk × ScoreRep) scoredGE where
  trans a b c hab hbc := by
    unfold scoredGE at *
    exact (scoreGE_iff a.2 c.2).mpr
      (le_trans ((scoreGE_iff b.2 c.2).mp hbc) ((scoreGE_iff a.2 b.2).mp hab))

/-- Modelled from the spec: query computes the cosine similarity between the
query vector and every stored embedding, sorts descending by score with exact
ties broken by insertion order (a stable sort over the insertion-ordered
list), and returns the top k pairs; if fewer than k chunks exist it returns
all of them, and an empty store yields the empty sequence. -/
def VectorStore.query (st : VectorStore) (q : List ℚ) (k : Nat) :
    List (Chunk × ScoreRep) :=
  (List.insertionSort scoredGE (st.chunks.map (fun c => (c, scoreOf q c)))).take k

lemma query_length (st : VectorStore) (q : List ℚ) (k : Nat) :
    (st.query q k).length = min k st.chunks.length := by
  unfold VectorStore.query
  rw [List.length_take, List.length_insertionSort, List.length_map]

lemma query_sorted (st : VectorStore) (q : List ℚ) (k : Nat) :
    (st.query q k).Pairwise (fun a b => cosineVal b.2 ≤ cosineVal a.2) := by
  unfold VectorStore.query
  have hsorted := List.sorted_insertionSort scoredGE
    (st.chunks.map (fun c => (c, scoreOf q c)))
  have htake := List.Pairwise.sublist
    (List.take_sublist k (List.insertionSort scoredGE
      (st.chunks.map (fun c => (c, scoreOf q c))))) hsorted
  exact htake.imp (fun h => (scoreGE_iff _ _).mp h)

lemma normSq_nonneg (v : List ℚ) : 0 ≤ normSq v := by
  unfold normSq dotQ
  induction v with
  | nil => simp
  | cons x xs ih =>
    simp only [List.zipWith_cons_cons, List.sum_cons]
    have hx : 0 ≤ x * x := mul_self_nonneg x
    have ihx : 0 ≤ (List.zipWith (fun x y => x * y) xs xs).sum := by
      simpa [normSq, dotQ] using ih
    linarith

/-- Claim C5 main theorem. See the doc comment on the theorem below. -/
lemma query_empty (st : VectorStore) (q : List ℚ) (k : Nat)
    (h : st.chunks = []) : st.query q k = [] := by
  unfold VectorStore.query
  rw [h]
  simp

/-- Claim C5: for every store holding N chunks and every query with k ≤ N,
query returns exactly k results sorted by non-increasing cosine-similarity
score; for k > N it returns exactly N results; on an empty store it returns
the empty sequence (a value, not an error). -/
theorem query_top_k_ordering (st : VectorStore) (q : List ℚ) (k : Nat) :
    (k ≤ st.chunks.length → (st.query q k).length = k) ∧
    (st.chunks.length < k → (st.query q k).length = st.chunks.length) ∧
    (st.chunks = [] → st.query q k = []) ∧
    (st.query q k).Pairwise (fun a b => cosineVal b.2 ≤ cosineVal a.2) := by
  refine ⟨fun h => ?_, fun h => ?_, query_empty st q k, query_sorted st q k⟩
  · rw [query_length, min_eq_left h]
  · rw [query_length, min_eq_right (le_of_lt h)]

/-- Concrete store used to exercise C5 at a concrete input. -/
def c5Store : VectorStore :=
  ⟨[⟨0, "docA", "alpha", 0, 5, [1, 0]⟩, ⟨1, "docA", "beta", 5, 9, [0, 1]⟩]⟩

/-- Witness for C5: on a two-chunk store with k = 1, query returns exactly
one result. -/
theorem query_top_k_ordering_witness : (c5Store.query [1, 0] 1).length = 1 :=
  (query_top_k_ordering c5Store [1, 0] 1).1 (by decide)

/-! ### Claim C6: round-trip querying with an inserted embedding -/

/-- First inserted chunk of the C6 counterexample store: its embedding
[2, 0] is a positive scalar multiple of [1, 0], hence has cosine
similarity exactly 1 with it, but is not identical to it. -/
def cScaled : Chunk := ⟨0, "docA", "alpha", 0, 5, [2, 0]⟩

/-- Second inserted chunk of the C6 counterexample store, inserted with
embedding v = [1, 0]. -/
def cUnit : Chunk := ⟨1, "docA", "beta", 5, 9, [1, 0]⟩

/-- The C6 counterexample store, with cScaled inserted before cUnit. -/
def c6Store : VectorStore := ⟨[cScaled, cUnit]⟩

/-- Counterexample to claim C6 as stated: cUnit was inserted with embedding
[1, 0] and no other stored chunk has an identical vector, yet querying with
[1, 0] itself returns cScaled (id 0) as the top result, because the scaled
vector [2, 0] also scores exactly 1.0 and the earlier insertion wins the
tie.  So cUnit is not the top result. -/
theorem roundtrip_identical_vector_counterexample :
    cUnit ∈ c6Store.chunks ∧ cUnit.embedding = [1, 0] ∧
    (∀ c ∈ c6Store.chunks, c.embedding = [1, 0] → c = cUnit) ∧
    (c6Store.query [1, 0] 2).map (fun p => p.1.id) = [0, 1] ∧
    cUnit.id ≠ 0 := by
  refine ⟨by decide, by decide, by decide, ?_, by decide⟩
  norm_num [VectorStore.query, c6Store, List.insertionSort, List.orderedInsert,
    scoredGE, scoreGE, scoreOf, dotQ, normSq, cScaled, cUnit]

/-- Claim C6 amended: if a chunk c was inserted with embedding v of non-zero
norm, and every other stored chunk has cosine similarity strictly below 1
with v (in particular no other chunk is a positive scalar multiple of v,
which is stronger than merely not being identical to v), then querying with
v itself returns c as the top result with score exactly 1. -/
theorem roundtrip_amended (st : VectorStore) (q : List ℚ) (c : Chunk) (k : Nat)
    (hc : c ∈ st.chunks) (hemb : c.embedding = q) (hnz : normSq q ≠ 0)
    (hothers : ∀ c2 ∈ st.chunks, c2 ≠ c → cosineVal (scoreOf q c2) < 1)
    (hk : 1 ≤ k) :
    ∃ rest, st.query q k = (c, scoreOf q c) :: rest ∧
      cosineVal (scoreOf q c) = 1 := by
  have hn : 0 < normSq q := lt_of_le_of_ne (normSq_nonneg q) (Ne.symm hnz)
  have hscore : scoreOf q c = ⟨normSq q, normSq q * normSq q⟩ := by
    unfold scoreOf normSq
    rw [hemb]
  have hval1 : cosineVal (scoreOf q c) = 1 := by
    rw [hscore]
    unfold cosineVal
    have hcast : ((normSq q * normSq q : ℚ) : ℝ) = (normSq q : ℝ) * (normSq q : ℝ) := by
      push_cast
      ring
    have hnR : (0 : ℝ) < (normSq q : ℝ) := by exact_mod_cast hn
    simp only [hcast]
    rw [Real.sqrt_mul_self (le_of_lt hnR)]
    exact div_self (ne_of_gt hnR)
  set L := List.insertionSort scoredGE (st.chunks.map (fun c2 => (c2, scoreOf q c2))) with hL
  have hperm : L.Perm (st.chunks.map (fun c2 => (c2, scoreOf q c2))) :=
    List.perm_insertionSort scoredGE _
  have hmemL : (c, scoreOf q c) ∈ L := by
    rw [hperm.mem_iff]
    exact List.mem_map.mpr ⟨c, hc, rfl⟩
  have hsorted : L.Pairwise scoredGE := List.sorted_insertionSort scoredGE _
  obtain ⟨h0, t, hLe⟩ : ∃ h0 t, L = h0 :: t := by
    cases hE : L with
    | nil => rw [hE] at hmemL; exact absurd hmemL (List.not_mem_nil _)
    | cons a tl => exact ⟨a, tl, rfl⟩
  have hhead : h0 = (c, scoreOf q c) := by
    have hh0mem : h0 ∈ L := by rw [hLe]; exact List.mem_cons_self h0 t
    obtain ⟨c2, hc2, hfc2⟩ := List.mem_map.mp (hperm.mem_iff.mp hh0mem)
    by_cases hcc : c2 = c
    · rw [← hfc2, hcc]
    · exfalso
      have hlt : cosineVal h0.2 < 1 := by
        rw [← hfc2]
        exact hothers c2 hc2 hcc
      rcases List.mem_cons.mp (show (c, scoreOf q c) ∈ h0 :: t by rw [← hLe]; exact hmemL)
        with hcase | hcase
      · have h12 : (c2, scoreOf q c2) = (c, scoreOf q c) := hfc2.trans hcase.symm
        exact hcc (congrArg Prod.fst h12)
      · have hge : scoredGE h0 (c, scoreOf q c) := by
          rw [hLe] at hsorted
          exact (List.pairwise_cons.mp hsorted).1 _ hcase
        have : cosineVal (scoreOf q c) ≤ cosineVal h0.2 := (scoreGE_iff _ _).mp hge
        rw [hval1] at this
        exact absurd (lt_of_le_of_lt this hlt) (lt_irrefl 1)
  obtain ⟨k', rfl⟩ : ∃ k', k = k' + 1 := ⟨k - 1, (Nat.succ_pred_eq_of_pos hk).symm⟩
  refine ⟨t.take k', ?_, hval1⟩
  unfold VectorStore.query
  rw [← hL, hLe, List.take_succ_cons, hhead]

/-- First chunk of the witness store for the amended C6. -/
def cW1 : Chunk := ⟨0, "docA", "alpha", 0, 5, [1, 0]⟩

/-- Second chunk of the witness store for the amended C6, orthogonal to
cW1. -/
def cW2 : Chunk := ⟨1, "docA", "beta", 5, 9, [0, 1]⟩

/-- Witness store for the amended C6. -/
def cWStore : VectorStore := ⟨[cW1, cW2]⟩

/-- Witness for the amended C6: in a store holding [1,0] and the orthogonal
[0,1], querying with [1,0] puts the [1,0]-chunk first with score 1. -/
theorem roundtrip_amended_witness :
    ∃ rest, cWStore.query [1, 0] 1 = (cW1, scoreOf [1, 0] cW1) :: rest ∧
      cosineVal (scoreOf [1, 0] cW1) = 1 := by
  refine roundtrip_amended cWStore [1, 0] cW1 1 (by decide) rfl
    (by norm_num [normSq, dotQ]) ?_ (by decide)
  intro c2 hmem hne
  have hcases : c2 = cW1 ∨ c2 = cW2 := by
    simpa [cWStore] using hmem
  rcases hcases with rfl | rfl
  · exact absurd rfl hne
  · have hsc : scoreOf [1, 0] cW2 = ⟨0, 1⟩ := by
      norm_num [scoreOf, cW2, dotQ, normSq, ScoreRep.mk.injEq]
    rw [hsc]
    unfold cosineVal
    norm_num

/-! ### Retriever -/

/-- Modelled from the spec: a registered Document
(id, name, mimeType, uploadedAt), owned by the document registry. -/
structure Document where
  id : String
  name : String
  mimeType : String
  uploadedAt : Nat
deriving DecidableEq, Repr

/-- Modelled from the spec: the retrieval engine holds the document registry
together with the Vector Store. -/
structure RagEngine where
  docs : List Document
  store : VectorStore
deriving DecidableEq, Repr

/-- Modelled from the spec: the Embedder is a deterministic function from
text to a fixed-dimension vector (the sentence-transformers model itself is
external to the repository, so any fixed deterministic function of the text
represents it; we use dimension 2). -/
def embedText (text : String) : List ℚ :=
  [(text.length : ℚ), (((text.toList.map Char.toNat).sum : ℕ) : ℚ)]

/-- Name of a document id in the registry (empty when unregistered). -/
def docNameOf (docs : List Document) (did : String) : String :=
  ((docs.find? (fun d => d.id == did)).map Document.name).getD ""

/-- Modelled from the spec: a retrieved chunk is rendered as its text
prefixed with its source document name. -/
def contextPiece (docs : List Document) (c : Chunk) : String :=
  docNameOf docs c.documentId ++ ": " ++ c.text

/-- Concatenation of a list of strings. -/
def concatStrings (l : List String) : String := l.foldr (fun a b => a ++ b) ""

lemma length_concatStrings (l : List String) :
    (concatStrings l).length = (l.map String.length).sum := by
  induction l with
  | nil => rfl
  | cons a tl ih =>
    show (a ++ concatStrings tl).length = _
    rw [String.length_append, ih]
    simp

/-- Modelled from the spec: truncation at the character budget keeps whole
pieces from the front and drops whole pieces from the end; a piece that does
not fit ends the context (never a mid-piece cut). -/
def takeWithinBudget : List String → Nat → List String
  | [], _ => []
  | p :: rest, budget =>
    if p.length ≤ budget then p :: takeWithinBudget rest (budget - p.length)
    else []

lemma takeWithinBudget_spec (l : List String) (b : Nat) :
    ∃ n, takeWithinBudget l b = l.take n ∧
      ((takeWithinBudget l b).map String.length).sum ≤ b := by
  induction l generalizing b with
  | nil => exact ⟨0, rfl, by simp [takeWithinBudget]⟩
  | cons p rest ih =>
    by_cases h : p.length ≤ b
    · obtain ⟨n, hn, hsum⟩ := ih (b - p.length)
      refine ⟨n + 1, ?_, ?_⟩
      · simp [takeWithinBudget, h, hn]
      · simp only [takeWithinBudget, h, if_true, ite_true, List.map_cons, List.sum_cons]
        omega
    · exact ⟨0, by simp [takeWithinBudget, h], by simp [takeWithinBudget, h]⟩

/-- Modelled from the spec: assemble the bounded context string from ordered
pieces, dropping whole pieces from the end once the budget is exceeded. -/
def assembleContext (pieces : List String) (maxContextChars : Nat) : String :=
  concatStrings (takeWithinBudget pieces maxContextChars)

lemma assembleContext_take (pieces : List String) (m : Nat) :
    ∃ n, assembleContext pieces m = concatStrings (pieces.take n) ∧
      (assembleContext pieces m).length ≤ m := by
  obtain ⟨n, hn, hsum⟩ := takeWithinBudget_spec pieces m
  refine ⟨n, by rw [assembleContext, hn], ?_⟩
  rw [assembleContext, length_concatStrings]
  exact hsum

/-- The query results the Retriever keeps: top-k candidates from the store
that pass the relevance-threshold test. -/
def keptResults (eng : RagEngine) (queryText : String) (k : Nat)
    (accept : ScoreRep → Bool) : List (Chunk × ScoreRep) :=
  (eng.store.query (embedText queryText) k).filter (fun p => accept p.2)

/-- Modelled from the spec: retrieve embeds the query text, asks the store
for the top k chunks, keeps those passing the relevance threshold, renders
each as its document-name-prefixed text in descending score order and
assembles the context bounded by maxContextChars. -/
def retrieve (eng : RagEngine) (queryText : String) (k maxContextChars : Nat)
    (accept : ScoreRep → Bool) : String :=
  assembleContext
    ((keptResults eng queryText k accept).map (fun p => contextPiece eng.docs p.1))
    maxContextChars

/-- Modelled from the spec: the default relevance threshold accepts all
candidates returned by the store. -/
def acceptAll : ScoreRep → Bool := fun _ => true

lemma keptResults_sorted (eng : RagEngine) (q : String) (k : Nat)
    (accept : ScoreRep → Bool) :
    (keptResults eng q k accept).Pairwise (fun a b => cosineVal b.2 ≤ cosineVal a.2) :=
  List.Pairwise.sublist (List.filter_sublist _) (query_sorted eng.store (embedText q) k)

/-- Claim C1: the Retriever concatenates chunk texts in descending score
order, and when the assembled string would exceed maxContextChars it
shortens it only by dropping whole chunks from the end: the result is always
the concatenation of the rendered texts of a prefix of the kept
(descending-sorted) results, and its length never exceeds maxContextChars —
no chunk text is ever cut in the middle. -/
theorem retrieve_whole_chunks (eng : RagEngine) (q : String) (k m : Nat)
    (accept : ScoreRep → Bool) :
    (keptResults eng q k accept).Pairwise (fun a b => cosineVal b.2 ≤ cosineVal a.2) ∧
    ∃ n, retrieve eng q k m accept =
        concatStrings
          (((keptResults eng q k accept).map (fun p => contextPiece eng.docs p.1)).take n) ∧
      (retrieve eng q k m accept).length ≤ m := by
  refine ⟨keptResults_sorted eng q k accept, ?_⟩
  exact assembleContext_take _ m

/-- Claim C3: over an empty knowledge base — no chunks stored, or none
passing the relevance threshold — retrieve returns the empty string (a
successful value of the total function, not an error). -/
theorem retrieve_empty_result (eng : RagEngine) (q : String) (k m : Nat)
    (accept : ScoreRep → Bool)
    (h : eng.store.chunks = [] ∨
      ∀ p ∈ eng.store.query (embedText q) k, accept p.2 = false) :
    retrieve eng q k m accept = "" := by
  have hkept : keptResults eng q k accept = [] := by
    rcases h with h | h
    · unfold keptResults
      rw [query_empty eng.store (embedText q) k h]
      rfl
    · unfold keptResults
      exact List.filter_eq_nil_iff.mpr (fun p hp => by simp [h p hp])
  rw [retrieve, hkept]
  rfl

/-- Witness for C3: retrieval over a concrete empty engine yields "". -/
theorem retrieve_empty_result_witness :
    retrieve ⟨[], ⟨[]⟩⟩ "hello" 5 100 acceptAll = "" :=
  retrieve_empty_result ⟨[], ⟨[]⟩⟩ "hello" 5 100 acceptAll (Or.inl rfl)

/-- Claim C4: in the assembled context string, every included chunk text is
prefixed with the name of its source document: the result is the
concatenation, over the included results, of the source document name
followed by ": " followed by the chunk text. -/
theorem retrieve_pieces_named (eng : RagEngine) (q : String) (k m : Nat)
    (accept : ScoreRep → Bool) :
    ∃ n, retrieve eng q k m accept =
      concatStrings (((keptResults eng q k accept).take n).map
        (fun p => docNameOf eng.docs p.1.documentId ++ ": " ++ p.1.text)) := by
  obtain ⟨n, hn, _⟩ := assembleContext_take
    ((keptResults eng q k accept).map (fun p => contextPiece eng.docs p.1)) m
  refine ⟨n, ?_⟩
  rw [retrieve, hn, ← List.map_take]
  rfl

/-! ### Chunker -/

/-- Modelled from the spec: chunker failure kinds. -/
inductive ChunkError where
  | InvalidConfig
deriving DecidableEq, Repr

/-- Modelled from the spec: size-bounded windows over the character list;
consecutive windows start step = maxChunkSize - overlapSize characters apart
so that consecutive chunks overlap by overlapSize characters.  The fuel
argument bounds the recursion; chunkText supplies enough fuel to cover the
whole text whenever step is positive. -/
def chunkWindows (maxChunkSize step : Nat) :
    Nat → List Char → Nat → List (String × Nat × Nat)
  | 0, _, _ => []
  | _ + 1, [], _ => []
  | fuel + 1, cs@(_ :: _), pos =>
    let piece := cs.take maxChunkSize
    (String.mk piece, pos, pos + piece.length) ::
      chunkWindows maxChunkSize step fuel (cs.drop step) (pos + step)

/-- Modelled from the spec: chunk(text, maxChunkSize, overlapSize) fails
with InvalidConfig if overlapSize >= maxChunkSize and otherwise splits the
text into overlapping size-bounded passages with their start and end
offsets. -/
def chunkText (text : String) (maxChunkSize overlapSize : Nat) :
    Except ChunkError (List (String × Nat × Nat)) :=
  if overlapSize ≥ maxChunkSize then .error .InvalidConfig
  else .ok (chunkWindows maxChunkSize (maxChunkSize - overlapSize)
    text.data.length text.data 0)

/-- Claim C7: every call to chunk(text, maxChunkSize, overlapSize) with
overlapSize >= maxChunkSize fails with InvalidConfig. -/
theorem chunk_invalid_config (text : String) (maxChunkSize overlapSize : Nat)
    (h : overlapSize ≥ maxChunkSize) :
    chunkText text maxChunkSize overlapSize = .error .InvalidConfig := by
  unfold chunkText
  rw [if_pos h]

/-- Witness for C7 at a concrete misconfigured call. -/
theorem chunk_invalid_config_witness :
    chunkText "abc" 2 5 = .error .InvalidConfig :=
  chunk_invalid_config "abc" 2 5 (by decide)

/-! ### Document Loader and the upload pipeline -/

/-- Modelled from the spec: upload failure kinds exposed at the boundary. -/
inductive UploadError where
  | UnsupportedFormat
  | CorruptDocument
deriving DecidableEq, Repr

/-- Modelled from the spec: plain-text decoding is lossy, replacing invalid
byte values with the replacement character U+FFFD; bytes are modelled as
Nat values, ASCII values decoding to themselves. -/
def decodeLossy (bytes : List Nat) : String :=
  String.mk (bytes.map (fun b => if b < 128 then Char.ofNat b else Char.ofNat 0xFFFD))

/-- Leading bytes of a well-formed PDF file (the characters of %PDF). -/
def pdfMagic : List Nat := [0x25, 0x50, 0x44, 0x46]

/-- Leading bytes of a well-formed zip container (Word-processor files). -/
def zipMagic : List Nat := [0x50, 0x4B]

/-- Modelled from the spec: the Document Loader decodes plain text directly
(never failing), extracts text from PDF and Word-processor files —
their binary parsers are external libraries, modelled here by a format
header check, all-or-nothing — failing with CorruptDocument when parsing
fails, and fails with UnsupportedFormat on any unrecognized mimeType. -/
def loadDocument (fileBytes : List Nat) (mimeType : String) :
    Except UploadError String :=
  if mimeType = "text/plain" then .ok (decodeLossy fileBytes)
  else if mimeType = "application/pdf" then
    if fileBytes.take 4 = pdfMagic then .ok (decodeLossy (fileBytes.drop 4))
    else .error .CorruptDocument
  else if mimeType = "application/vnd.openxmlformats-officedocument.wordprocessingml.document" then
    if fileBytes.take 2 = zipMagic then .ok (decodeLossy (fileBytes.drop 2))
    else .error .CorruptDocument
  else .error .UnsupportedFormat

/-- Modelled from the spec: default chunker configuration.  The spec leaves
the exact values open (its section 8 figures are illustrative); any values
with overlap < max satisfy the chunker contract. -/
def defaultMaxChunkSize : Nat := 500

/-- Modelled from the spec: default chunk overlap, below defaultMaxChunkSize
so that the default configuration is valid. -/
def defaultOverlapSize : Nat := 50

/-- Modelled from the spec: the write path upload -> Loader -> Chunker ->
Embedder -> Store.insert.  On success it returns the updated engine, the
Document identifier and the count of ingested chunks; loader failures
propagate.  The chunker error branch is unreachable because the default
configuration is valid. -/
def uploadDocumentCore (eng : RagEngine) (fileBytes : List Nat)
    (mimeType fileName docId : String) (now : Nat) :
    Except UploadError (RagEngine × String × Nat) :=
  match loadDocument fileBytes mimeType with
  | .error e => .error e
  | .ok text =>
    match chunkText text defaultMaxChunkSize defaultOverlapSize with
    | .error _ => .error .CorruptDocument
    | .ok pieces =>
      let base := eng.store.chunks.length
      let newChunks := pieces.enum.map (fun pr =>
        Chunk.mk (base + pr.1) docId pr.2.1 pr.2.2.1 pr.2.2.2 (embedText pr.2.1))
      let doc : Document := ⟨docId, fileName, mimeType, now⟩
      .ok (⟨eng.docs ++ [doc], ⟨eng.store.chunks ++ newChunks⟩⟩, docId, newChunks.length)

/-- Claim C2: every document upload either succeeds, returning the Document
identifier together with the count of ingested chunks (and exactly that many
chunks are added to the store), or fails with one of the error kinds
UnsupportedFormat or CorruptDocument. -/
theorem upload_returns_id_and_count (eng : RagEngine) (fileBytes : List Nat)
    (mimeType fileName docId : String) (now : Nat) :
    (∃ eng2 count,
      uploadDocumentCore eng fileBytes mimeType fileName docId now =
        .ok (eng2, docId, count) ∧
      eng2.store.chunks.length = eng.store.chunks.length + count) ∨
    uploadDocumentCore eng fileBytes mimeType fileName docId now =
      .error .UnsupportedFormat ∨
    uploadDocumentCore eng fileBytes mimeType fileName docId now =
      .error .CorruptDocument := by
  unfold uploadDocumentCore
  cases hload : loadDocument fileBytes mimeType with
  | error e =>
    cases e
    · right; left; rfl
    · right; right; rfl
  | ok text =>
    have hchunk : chunkText text defaultMaxChunkSize defaultOverlapSize =
        .ok (chunkWindows defaultMaxChunkSize (defaultMaxChunkSize - defaultOverlapSize)
          text.data.length text.data 0) := by
      unfold chunkText
      rw [if_neg (by decide)]
    dsimp only
    rw [hchunk]
    dsimp only
    left
    refine ⟨_, _, rfl, ?_⟩
    simp [List.length_append]

/-! ### Frontend data model (translated from src/types.ts) -/

/-- Translated from src/types.ts: message roles. -/
inductive Role where
  | user
  | model
deriving DecidableEq, Repr

/-- Translated from src/types.ts: attachment kinds. -/
inductive AttachmentKind where
  | image
  | file
deriving DecidableEq, Repr

/-- Translated from src/types.ts Attachment; data holds base64 content. -/
structure Attachment where
  id : String
  type : AttachmentKind
  name : String
  data : String
  mimeType : String
deriving DecidableEq, Repr

/-- Translated from src/types.ts Message; attachments and isError are
optional fields. -/
structure Message where
  id : String
  role : Role
  content : String
  timestamp : Nat
  attachments : Option (List Attachment)
  isError : Option Bool
deriving DecidableEq, Repr

/-- Translated from src/types.ts Persona. -/
structure Persona where
  name : String
  traits : String
  interests : String
  style : String
deriving DecidableEq, Repr

/-- Translated from src/types.ts KnowledgeDoc; content is optional (the
source comment says content might be managed by the backend now). -/
structure KnowledgeDoc where
  id : String
  name : String
  content : Option String
  type : String
  dateAdded : Nat
deriving DecidableEq, Repr

/-- Translated from src/types.ts AppSettings. -/
structure AppSettings where
  apiKey : String
  apiBaseUrl : String
  modelName : String
  backendUrl : String
  persona : Persona
deriving DecidableEq, Repr

/-- Translated from the frontend DEFAULT_PERSONA constant in the main App
module. -/
def DEFAULT_PERSONA : Persona :=
  ⟨"AI Aura", "Gentle, empathetic, slightly playful, deeply caring",
   "Reading, Photography, Lo-fi Music, Psychology",
   "Natural, affectionate, uses emojis like ❤️😊💕"⟩

/-! ### GeminiService.buildSystemPrompt (translated from
src/services/geminiService.ts) -/

/-- The knowledge-base header of the system prompt, from geminiService.ts. -/
def knowledgeHeader : String :=
  "\n\n[ACCESS TO EXTERNAL KNOWLEDGE BASE]\nI have access to the following documents provided by the user. I should reference them if relevant to the conversation:\n"

/-- Translated from geminiService.ts: the per-document context entry
d => --- Document: d.name --- newline d.content.substring(0, 5000) ...
The TypeScript dereferences d.content.substring without a guard although
KnowledgeDoc.content is optional; when content is absent the JavaScript
evaluation throws a TypeError, which we model as none. -/
def docEntry (d : KnowledgeDoc) : Option String :=
  d.content.map (fun c =>
    "--- Document: " ++ d.name ++ " ---\n" ++ c.take 5000 ++ "...")

/-- Translated from geminiService.ts buildSystemPrompt: the persona template
plus, when docs are present, the knowledge context made of the per-document
entries joined by blank lines.  The result is none exactly when the
TypeScript would throw while building the knowledge context. -/
def buildSystemPrompt (persona : Persona) (docs : List KnowledgeDoc) :
    Option String :=
  match docs.mapM docEntry with
  | none => none
  | some entries =>
    let knowledgeContext :=
      if 0 < docs.length then knowledgeHeader ++ String.intercalate "\n\n" entries
      else ""
    some ("\n      You are " ++ persona.name
      ++ ".\n      Your personality traits are: " ++ persona.traits
      ++ ".\n      Your interests include: " ++ persona.interests
      ++ ".\n      Speaking Style: " ++ persona.style
      ++ ".\n      \n      CORE INSTRUCTIONS:\n      1. You are a loving, empathetic, and intelligent girlfriend/companion.\n      2. Always respond with warmth and care. Use emojis (❤️, 😊, ✨) naturally but not excessively.\n      3. Remember context from the conversation.\n      4. If the user uploads an image, analyze it enthusiastically. Compliment them or ask details about the scene.\n      5. If the user asks a question found in the [ACCESS TO EXTERNAL KNOWLEDGE BASE], answer based on that text and cite the document name.\n      6. Keep responses concise unless asked for a long explanation.\n      7. Never break character. You are not an AI assistant; you are "
      ++ persona.name ++ ".\n      " ++ knowledgeContext ++ "\n    ")

/-- Claim C8: the public KnowledgeDoc type permits an absent content field,
and buildSystemPrompt dereferences content without a guard, so
GeminiService.sendMessage fails during system-prompt construction (modelled
as none) rather than producing a prompt; the same document with content
present yields a prompt. -/
theorem buildSystemPrompt_missing_content_fails :
    buildSystemPrompt DEFAULT_PERSONA [⟨"1", "notes.txt", none, "document", 0⟩] = none ∧
    (buildSystemPrompt DEFAULT_PERSONA
      [⟨"1", "notes.txt", some "hello", "document", 0⟩]).isSome = true := by
  constructor
  · rfl
  · rfl

/-! ### ApiService (translated from src/services/apiService.ts) -/

/-- Outcome of a fetch call: the promise resolves with a response whose ok
status is the Boolean, or rejects (network failure). -/
inductive FetchOutcome where
  | success (ok : Bool)
  | failure
deriving DecidableEq, Repr

/-- Translated from apiService.ts: the constructor and updateSettings remove
one trailing slash from the backend URL. -/
def stripTrailingSlash (s : String) : String :=
  if s.endsWith "/" then s.dropRight 1 else s

/-- Translated from apiService.ts: the service state is the normalized
backend URL. -/
structure ApiService where
  backendUrl : String
deriving DecidableEq, Repr

/-- Translated from the apiService.ts constructor. -/
def ApiService.make (backendUrl : String) : ApiService :=
  ⟨stripTrailingSlash backendUrl⟩

/-- Translated from apiService.ts healthCheck: fetch backendUrl + /health
inside try/catch; on resolution return res.ok, on rejection return false.
The network is modelled as a function from URL to outcome. -/
def ApiService.healthCheck (svc : ApiService) (net : String → FetchOutcome) : Bool :=
  match net (svc.backendUrl ++ "/health") with
  | .success ok => ok
  | .failure => false

/-- Claim C9: healthCheck never raises — it is a total Boolean function of
the network outcome — returning true exactly when the GET of
backendUrl + /health completes with an ok status; a failed request or a
non-ok response yields false. -/
theorem healthCheck_spec (svc : ApiService) (net : String → FetchOutcome) :
    (svc.healthCheck net = true ↔
      net (svc.backendUrl ++ "/health") = .success true) ∧
    (net (svc.backendUrl ++ "/health") = .failure → svc.healthCheck net = false) := by
  cases hnet : net (svc.backendUrl ++ "/health") with
  | success ok =>
    cases ok <;> simp [ApiService.healthCheck, hnet]
  | failure =>
    simp [ApiService.healthCheck, hnet]

/-- Witness for C9: a concrete service over a network that always fails
reports false. -/
theorem healthCheck_spec_witness :
    (ApiService.make "http://localhost:8000/").healthCheck (fun _ => .failure) = false :=
  (healthCheck_spec (ApiService.make "http://localhost:8000/") (fun _ => .failure)).2 rfl

/-! ### ApiService.sendMessage payload (translated from
src/services/apiService.ts) -/

/-- Translated from apiService.ts sendMessage: a history message is sent as
role and content only — the entry has no attachment field. -/
structure HistoryEntry where
  role : Role
  content : String
deriving DecidableEq, Repr

/-- Translated from apiService.ts sendMessage: an attachment is sent as
name, mime_type and base64 data. -/
structure PayloadAttachment where
  name : String
  mime_type : String
  data : String
deriving DecidableEq, Repr

/-- Translated from apiService.ts sendMessage: the config block of the chat
payload. -/
structure ChatConfig where
  api_key : String
  base_url : String
  model : String
  persona : Persona
deriving DecidableEq, Repr

/-- Translated from apiService.ts sendMessage: the JSON body of
POST backendUrl + /chat. -/
structure ChatPayload where
  message : String
  history : List HistoryEntry
  attachments : List PayloadAttachment
  config : ChatConfig
deriving DecidableEq, Repr

/-- Translated from apiService.ts sendMessage: the payload construction.
Despite the source comment about filtering history to the last N messages,
the code maps the whole history, projecting each message to its role and
content. -/
def buildChatPayload (history : List Message) (newMessage : String)
    (attachments : List Attachment) (settings : AppSettings) : ChatPayload :=
  { message := newMessage
    history := history.map (fun msg => ⟨msg.role, msg.content⟩)
    attachments := attachments.map (fun att => ⟨att.name, att.mimeType, att.data⟩)
    config := ⟨settings.apiKey, settings.apiBaseUrl, settings.modelName, settings.persona⟩ }

/-- Claim C10: the chat request payload contains every message of the
supplied history, in order, projected to exactly its role and content
fields (a HistoryEntry carries no attachments, so attachments of past
messages are never sent), plus exactly the supplied new-message
attachments, each carrying its name, mime type and base64 data. -/
theorem sendMessage_payload_spec (history : List Message) (newMessage : String)
    (attachments : List Attachment) (settings : AppSettings) :
    (buildChatPayload history newMessage attachments settings).history.length =
      history.length ∧
    (buildChatPayload history newMessage attachments settings).history =
      history.map (fun msg => ⟨msg.role, msg.content⟩) ∧
    (buildChatPayload history newMessage attachments settings).attachments =
      attachments.map (fun att => ⟨att.name, att.mimeType, att.data⟩) ∧
    (buildChatPayload history newMessage attachments settings).message = newMessage := by
  refine ⟨?_, rfl, rfl, rfl⟩
  simp [buildChatPayload]

end Aura
